import Mathlib

/-!
Verification of the next-intl-extractor core against its code.

This file shallowly embeds the two subsystems of the repository that the
checked properties are about:

* the namespace merge engine of crates/cli/src/messages.rs
  (MessageMap / MessageHandler: add_extracted_message, merge_messages,
  merge_recursive, lookup_in_source, remove_messages_for_file), together
  with the watch-driver operations of crates/cli/src/watch.rs
  (process_file_change, process_file_removal);

* the scoped extraction visitor of crates/resolver/src/visitor.rs
  (TranslationFunctionVisitor: scope tracking, visit_function,
  visit_variable_declaration, visit_call_expression,
  extract_namespace_from_translations_call, merge_by_namespace) and the
  driver extract_translations of crates/extractor/src/lib.rs.

Rust HashMap and serde_json Map values are modelled as association entry
sequences (lookup finds the first matching key, insert replaces the value of
an existing key in place and otherwise appends).  HashSet of strings is
modelled as a duplicate-free list with insert-if-absent.  The log::warn side
effect of the visitor is modelled as an explicit list of warning messages
carried in the visitor state.
-/

set_option autoImplicit false

namespace NextIntlExtractor

/-- Embeds MessageInfo of messages.rs: the payload of a trie leaf.
The value field is always the empty string in the code (String::new()). -/
structure MessageInfo where
  value : String
  file_path : String
deriving DecidableEq, Repr

mutual
/-- Embeds Either of MessageInfo and a boxed MessageMap of messages.rs:
a trie position holds either a leaf (Left) or a branch (Right). -/
inductive MessageNode where
  | left (info : MessageInfo)
  | right (map : MessageMap)
deriving DecidableEq, Repr

/-- Embeds the messages field of MessageMap of messages.rs, a
HashMap from String to Either of MessageInfo and MessageMap, modelled as
association entries. -/
inductive MessageMap where
  | nil
  | cons (key : String) (node : MessageNode) (rest : MessageMap)
deriving DecidableEq, Repr
end

/-- HashMap::get on the modelled map. -/
def MessageMap.get : MessageMap → String → Option MessageNode
  | .nil, _ => none
  | .cons k n rest, key => if k = key then some n else rest.get key

/-- HashMap::insert on the modelled map: replaces the value at an existing
key in place, otherwise appends the new entry. -/
def MessageMap.insert : MessageMap → String → MessageNode → MessageMap
  | .nil, key, node => .cons key node .nil
  | .cons k n rest, key, node =>
      if k = key then .cons k node rest else .cons k n (rest.insert key node)

/-- Embeds NamespaceConflict of messages.rs.  The source field named
namespace is a Lean keyword and is rendered nspace. -/
structure NamespaceConflict where
  nspace : String
  key : String
  files : List String
deriving DecidableEq, Repr

mutual
/-- Embeds serde_json::Value restricted to what the merge engine inspects:
strings, objects, and everything else (as_object fails on the latter). -/
inductive Value where
  | str (s : String)
  | obj (fields : Fields)
  | other
deriving DecidableEq, Repr

/-- Embeds serde_json::Map of String to Value as association entries. -/
inductive Fields where
  | nil
  | cons (key : String) (value : Value) (rest : Fields)
deriving DecidableEq, Repr
end

/-- Map::get on the modelled JSON object. -/
def Fields.get : Fields → String → Option Value
  | .nil, _ => none
  | .cons k v rest, key => if k = key then some v else rest.get key

/-- Map::insert on the modelled JSON object. -/
def Fields.insert : Fields → String → Value → Fields
  | .nil, key, v => .cons key v .nil
  | .cons k w rest, key, v =>
      if k = key then .cons k v rest else .cons k w (rest.insert key v)

/-- Value::as_object. -/
def Value.as_object : Value → Option Fields
  | .obj fields => some fields
  | _ => none

/-- Embeds MessageHandler of messages.rs.  The source catalog is already
loaded (load_source_messages is filesystem I/O at the boundary). -/
structure MessageHandler where
  source_messages : Fields
  extracted_messages : MessageMap
  conflicts : List NamespaceConflict
deriving DecidableEq, Repr

/-- MessageHandler::new with an already-loaded catalog object. -/
def MessageHandler.new (source_messages : Fields) : MessageHandler :=
  { source_messages := source_messages
    extracted_messages := .nil
    conflicts := [] }

/-- Splitting accumulator: collects the current piece in reverse. -/
def splitDotAux : List Char → List Char → List String
  | [], acc => [String.mk acc.reverse]
  | c :: rest, acc =>
      if c = '.' then String.mk acc.reverse :: splitDotAux rest []
      else splitDotAux rest (c :: acc)

/-- Rust str::split at the dot character, as both add_extracted_message and
lookup_in_source use it: the empty string yields one empty piece, and
adjacent dots yield empty pieces.  (Structurally recursive rendering of
String.splitOn for dots.) -/
def splitDot (s : String) : List String :=
  splitDotAux s.data []

/-- The navigation-and-insertion loop of MessageHandler::add_extracted_message
(messages.rs lines 49-87).  For every namespace part, the code walks into the
entry, creating an empty Branch when the part is absent; finding a Leaf where
a Branch is required records a conflict on that part and aborts.  After the
loop the key is checked for an existing Leaf (recording a same-key conflict)
and then inserted unconditionally.  Returns the updated map and the conflict
the call pushes, if any. -/
def addWalk : MessageMap → List String → String → String → String →
    MessageMap × Option NamespaceConflict
  | current, [], nspace, key, fp =>
      let conflict : Option NamespaceConflict :=
        match current.get key with
        | some (.left existing) => some ⟨nspace, key, [existing.file_path, fp]⟩
        | _ => none
      (current.insert key (.left ⟨"", fp⟩), conflict)
  | current, part :: rest, nspace, key, fp =>
      match current.get part with
      | some (.left info) => (current, some ⟨nspace, part, [info.file_path, fp]⟩)
      | some (.right child) =>
          let r := addWalk child rest nspace key fp
          (current.insert part (.right r.1), r.2)
      | none =>
          let r := addWalk .nil rest nspace key fp
          (current.insert part (.right r.1), r.2)

/-- Embeds MessageHandler::add_extracted_message. -/
def add_extracted_message (h : MessageHandler) (nspace key fp : String) :
    MessageHandler :=
  let r := addWalk h.extracted_messages (splitDot nspace) nspace key fp
  { h with
    extracted_messages := r.1
    conflicts := h.conflicts ++ r.2.toList }

/-- Embeds MessageHandler::add_extracted_messages: iterates a per-file
extraction result (namespace to key set) and inserts every pair. -/
def add_extracted_messages (h : MessageHandler)
    (messages : List (String × List String)) (fp : String) : MessageHandler :=
  messages.foldl
    (fun acc p => p.2.foldl (fun acc2 key => add_extracted_message acc2 p.1 key fp) acc)
    h

/-- The loop of MessageHandler::lookup_in_source (messages.rs lines 149-158):
walks the dotted full key through the source catalog; at the last part it
returns the entry at the key parameter of the enclosing call. -/
def lookupLoop (key : String) : List String → Fields → Option Value
  | [], _ => none
  | [_], current => current.get key
  | part :: rest, current =>
      match current.get part with
      | none => none
      | some v =>
          match v.as_object with
          | some obj => lookupLoop key rest obj
          | none => none

/-- Embeds MessageHandler::lookup_in_source. -/
def lookup_in_source (source_messages : Fields) (full_key key : String) :
    Option Value :=
  lookupLoop key (splitDot full_key) source_messages

/-- Embeds MessageHandler::merge_recursive.  Note that a Branch recurses with
the immediate branch key as the new prefix (Some(key)), exactly as the source
does. -/
def merge_recursive (source_messages : Fields) : MessageMap → Option String → Fields
  | .nil, _ => .nil
  | .cons key node rest, pfx =>
      match node with
      | .left _ =>
          let full_key :=
            match pfx with
            | some p => p ++ "." ++ key
            | none => key
          let v :=
            match lookup_in_source source_messages full_key key with
            | some source_value => source_value
            | none => Value.str full_key
          Fields.cons key v (merge_recursive source_messages rest pfx)
      | .right nested =>
          Fields.cons key (Value.obj (merge_recursive source_messages nested (some key)))
            (merge_recursive source_messages rest pfx)

/-- Embeds MessageHandler::merge_messages. -/
def merge_messages (h : MessageHandler) : Fields :=
  merge_recursive h.source_messages h.extracted_messages none

/-- Embeds the free function remove_messages of messages.rs: retains a leaf
entry when its owner differs from the removed file, recursively cleans a
branch and retains it only when the cleaned branch is non-empty. -/
def remove_messages : MessageMap → String → MessageMap
  | .nil, _ => .nil
  | .cons k node rest, fp =>
      match node with
      | .left info =>
          if info.file_path = fp then remove_messages rest fp
          else .cons k node (remove_messages rest fp)
      | .right child =>
          let cleaned := remove_messages child fp
          if cleaned = .nil then remove_messages rest fp
          else .cons k (.right cleaned) (remove_messages rest fp)

/-- Embeds MessageHandler::remove_messages_for_file: removes the file's
leaves and drops every conflict whose files list contains the file. -/
def remove_messages_for_file (h : MessageHandler) (fp : String) :
    MessageHandler :=
  { h with
    extracted_messages := remove_messages h.extracted_messages fp
    conflicts := h.conflicts.filter (fun c => ¬ c.files.contains fp) }

/-- Embeds process_file_change of watch.rs: the extraction result of the
changed file (the parser is the external boundary) is added to the handler
under the file's path; the merged catalog is then rewritten
(write_merged_messages persists merge_messages of the resulting handler). -/
def process_file_change (h : MessageHandler)
    (translations : List (String × List String)) (path : String) :
    MessageHandler :=
  add_extracted_messages h translations path

/-- Embeds process_file_removal of watch.rs. -/
def process_file_removal (h : MessageHandler) (path : String) : MessageHandler :=
  remove_messages_for_file h path

/-! ## The scoped extraction visitor (crates/resolver/src/visitor.rs) -/

/-- Embeds oxc BindingPatternKind restricted to what the visitor matches:
a plain binding identifier, or anything else (skipped). -/
inductive BindingPatternKind where
  | bindingIdentifier (name : String)
  | otherPattern
deriving DecidableEq, Repr

/-- Embeds oxc PropertyKey restricted to what the visitor matches. -/
inductive PropKey where
  | staticIdentifier (name : String)
  | otherKey
deriving DecidableEq, Repr

mutual
/-- Embeds the oxc Expression variants the visitor inspects or walks through.
functionExpression stands for an oxc Function node in expression position
(the node carries an optional name and a body). -/
inductive Expr where
  | stringLiteral (value : String)
  | identifier (name : String)
  | callExpression (callee : Expr) (arguments : Args)
  | awaitExpression (argument : Expr)
  | objectExpression (properties : Props)
  | staticMemberExpression (object : Expr) (property : String)
  | functionExpression (id : Option String) (body : Stmts)
  | otherExpression
deriving Repr

/-- Call argument list. -/
inductive Args where
  | nil
  | cons (head : Arg) (tail : Args)
deriving Repr

/-- Embeds oxc Argument: an expression argument or a spread element. -/
inductive Arg where
  | expr (e : Expr)
  | spreadElement
deriving Repr

/-- Object property list. -/
inductive Props where
  | nil
  | cons (head : ObjProp) (tail : Props)
deriving Repr

/-- Embeds oxc ObjectPropertyKind restricted to what
extract_namespace_from_translations_call matches. -/
inductive ObjProp where
  | objectProperty (key : PropKey) (value : Expr)
  | otherProperty
deriving Repr

/-- Statement list (a function or program body). -/
inductive Stmts where
  | nil
  | cons (head : Stmt) (tail : Stmts)
deriving Repr

/-- Embeds the oxc Statement variants the examples need: a variable
declaration, an expression statement, and a function declaration (an oxc
Function node in statement position). -/
inductive Stmt where
  | variableDeclaration (declarations : Decls)
  | expressionStatement (e : Expr)
  | functionDeclaration (id : Option String) (body : Stmts)
deriving Repr

/-- Declarator list of a variable declaration. -/
inductive Decls where
  | nil
  | cons (head : Decl) (tail : Decls)
deriving Repr

/-- Initializer of a declarator (Option of Expression). -/
inductive DeclInit where
  | noInit
  | init (e : Expr)
deriving Repr

/-- Embeds oxc VariableDeclarator: a binding pattern and an optional
initializer. -/
inductive Decl where
  | mk (id : BindingPatternKind) (declInit : DeclInit)
deriving Repr
end

/-- Embeds TranslationFunction of visitor.rs.  The source field named
namespace is a Lean keyword and is rendered nspace; the HashSet of usages is
modelled as a duplicate-free list. -/
structure TranslationFunction where
  nspace : String
  usages : List String
deriving DecidableEq, Repr

/-- Embeds TranslationFunctionVisitor of visitor.rs.  translation_functions
is a HashMap modelled as association entries; warnings models the log::warn
side channel of visit_variable_declaration. -/
structure TranslationFunctionVisitor where
  translation_functions : List (String × TranslationFunction)
  current_scope : List String
  warnings : List String
deriving DecidableEq, Repr

/-- TranslationFunctionVisitor::new. -/
def TranslationFunctionVisitor.new : TranslationFunctionVisitor :=
  { translation_functions := [], current_scope := [], warnings := [] }

/-- Embeds enter_scope: pushes a scope name. -/
def enter_scope (st : TranslationFunctionVisitor) (name : String) :
    TranslationFunctionVisitor :=
  { st with current_scope := st.current_scope ++ [name] }

/-- Embeds exit_scope: pops unconditionally (Vec::pop on an empty vector is
a no-op). -/
def exit_scope (st : TranslationFunctionVisitor) : TranslationFunctionVisitor :=
  { st with current_scope := st.current_scope.dropLast }

/-- Embeds current_scope_name: the scope stack joined with a dot. -/
def current_scope_name (st : TranslationFunctionVisitor) : String :=
  String.intercalate "." st.current_scope

/-- HashMap::get on the translation function table. -/
def tfGet (table : List (String × TranslationFunction)) (key : String) :
    Option TranslationFunction :=
  match table with
  | [] => none
  | (k, tf) :: rest => if k = key then some tf else tfGet rest key

/-- HashMap::insert on the translation function table. -/
def tfInsert (table : List (String × TranslationFunction)) (key : String)
    (tf : TranslationFunction) : List (String × TranslationFunction) :=
  match table with
  | [] => [(key, tf)]
  | (k, old) :: rest =>
      if k = key then (k, tf) :: rest else (k, old) :: tfInsert rest key tf

/-- HashSet::insert on a usage set: adds the value when absent. -/
def usageInsert (usages : List String) (value : String) : List String :=
  if usages.contains value then usages else usages ++ [value]

/-- get_mut followed by usages.insert: updates the usages of the entry at
the key, when present. -/
def tfAddUsage (table : List (String × TranslationFunction)) (key value : String) :
    List (String × TranslationFunction) :=
  match table with
  | [] => []
  | (k, tf) :: rest =>
      if k = key then (k, { tf with usages := usageInsert tf.usages value }) :: rest
      else (k, tf) :: tfAddUsage rest key value

/-- Args.first (slice::first on the call arguments). -/
def Args.first : Args → Option Arg
  | .nil => none
  | .cons a _ => some a

/-- The find_map over object properties inside
extract_namespace_from_translations_call: the first ObjectProperty whose key
is the static identifier named namespace and whose value is a string
literal. -/
def findNamespaceProp : Props → Option String
  | .nil => none
  | .cons (.objectProperty (.staticIdentifier keyName) (.stringLiteral v)) rest =>
      if keyName = "namespace" then some v else findNamespaceProp rest
  | .cons _ rest => findNamespaceProp rest

/-- Embeds extract_namespace_from_translations_call of visitor.rs: with
is_get_translations set (the initializer was awaited), the first argument
must be an object literal with a string-valued namespace property; otherwise
the first argument must be a string literal. -/
def extract_namespace_from_translations_call (arguments : Args)
    (is_get_translations : Bool) : Option String :=
  if is_get_translations then
    match arguments.first with
    | some (.expr (.objectExpression props)) => findNamespaceProp props
    | _ => none
  else
    match arguments.first with
    | some (.expr (.stringLiteral s)) => some s
    | _ => none

/-- The initializer match at the top of visit_variable_declaration: a direct
call yields (callee, arguments, false); a call under a single await yields
(callee, arguments, true); everything else is skipped. -/
def declCallParts : Decl → Option (Expr × Args × Bool)
  | .mk _ (.init (.callExpression callee arguments)) => some (callee, arguments, false)
  | .mk _ (.init (.awaitExpression (.callExpression callee arguments))) =>
      some (callee, arguments, true)
  | _ => none

/-- The warning text of visit_variable_declaration (the span is dropped in
the model). -/
def namespaceWarning : String :=
  "Could not find namespace for translations call"

/-- The loop body of visit_variable_declaration for one declarator,
following the source order: match the initializer shape, require an
identifier callee named useTranslations or getTranslations, resolve the
namespace (warning and skip when unresolvable), require a plain binding
identifier, then insert the binding keyed by scope and declared name. -/
def visitDeclarator (st : TranslationFunctionVisitor) (d : Decl) :
    TranslationFunctionVisitor :=
  match declCallParts d with
  | none => st
  | some (callee, arguments, is_get_translations) =>
      match callee with
      | .identifier callee_name =>
          if callee_name ≠ "useTranslations" ∧ callee_name ≠ "getTranslations" then st
          else
            match extract_namespace_from_translations_call arguments is_get_translations with
            | none => { st with warnings := st.warnings ++ [namespaceWarning] }
            | some nspace =>
                match d with
                | .mk (.bindingIdentifier decl_id) _ =>
                    { st with
                      translation_functions :=
                        tfInsert st.translation_functions
                          (current_scope_name st ++ ":" ++ decl_id)
                          ⟨nspace, []⟩ }
                | .mk .otherPattern _ => st
      | _ => st

/-- Embeds visit_variable_declaration: folds the loop body over the
declarators.  The override does not walk into the declaration, so
initializer subtrees are not traversed further. -/
def visit_variable_declaration (st : TranslationFunctionVisitor) :
    Decls → TranslationFunctionVisitor
  | .nil => st
  | .cons d rest => visit_variable_declaration (visitDeclarator st d) rest

/-- The shared body of both arms of visit_call_expression: builds the
qualified key from the scope at the call site and the callee base name, and
when a binding is found and the first argument is a string literal, inserts
it into that binding's usages. -/
def recordUsage (st : TranslationFunctionVisitor) (name : String) (arguments : Args) :
    TranslationFunctionVisitor :=
  let key := current_scope_name st ++ ":" ++ name
  match tfGet st.translation_functions key with
  | none => st
  | some _ =>
      match arguments.first with
      | some (.expr (.stringLiteral s)) =>
          { st with translation_functions := tfAddUsage st.translation_functions key s }
      | _ => st

/-- Embeds visit_call_expression: a static member callee resolves through
its object identifier, a bare identifier callee resolves directly, anything
else is ignored.  The override does not walk into the call, so argument
subtrees are not traversed further. -/
def visit_call_expression (st : TranslationFunctionVisitor) (callee : Expr)
    (arguments : Args) : TranslationFunctionVisitor :=
  match callee with
  | .staticMemberExpression object _ =>
      match object with
      | .identifier name => recordUsage st name arguments
      | _ => st
  | .identifier name => recordUsage st name arguments
  | _ => st

/-- The scope step at the top of visit_function: enters a scope only when
the function has a name. -/
def functionScopeEnter (st : TranslationFunctionVisitor) (id : Option String) :
    TranslationFunctionVisitor :=
  match id with
  | some name => enter_scope st name
  | none => st

mutual
/-- The default oxc walk over a statement, dispatching to the overridden
visitors.  A function node inlines visit_function: enter the scope when the
function has a name, walk the body, then call exit_scope unconditionally,
exactly as the source does. -/
def walkStatement (st : TranslationFunctionVisitor) : Stmt → TranslationFunctionVisitor
  | .variableDeclaration ds => visit_variable_declaration st ds
  | .expressionStatement e => walkExpression st e
  | .functionDeclaration id body =>
      exit_scope (walkStatements (functionScopeEnter st id) body)

/-- The default oxc walk over a statement list. -/
def walkStatements (st : TranslationFunctionVisitor) : Stmts → TranslationFunctionVisitor
  | .nil => st
  | .cons s rest => walkStatements (walkStatement st s) rest

/-- The default oxc walk over an expression: call expressions dispatch to
the overridden visitor (which does not descend further); a function node
inlines visit_function as in walkStatement; await, object and member
expressions descend into their children; leaves are no-ops. -/
def walkExpression (st : TranslationFunctionVisitor) : Expr → TranslationFunctionVisitor
  | .callExpression callee arguments => visit_call_expression st callee arguments
  | .awaitExpression argument => walkExpression st argument
  | .objectExpression properties => walkProps st properties
  | .staticMemberExpression object _ => walkExpression st object
  | .functionExpression id body =>
      exit_scope (walkStatements (functionScopeEnter st id) body)
  | .stringLiteral _ => st
  | .identifier _ => st
  | .otherExpression => st

/-- The default oxc walk over object properties. -/
def walkProps (st : TranslationFunctionVisitor) : Props → TranslationFunctionVisitor
  | .nil => st
  | .cons (.objectProperty _ v) rest => walkProps (walkExpression st v) rest
  | .cons .otherProperty rest => walkProps st rest
end

/-- Embeds visit_function of visitor.rs: enters a scope only when the
function has a name, walks the body, then calls exit_scope unconditionally,
exactly as the source does. -/
def visit_function (st : TranslationFunctionVisitor) (id : Option String)
    (body : Stmts) : TranslationFunctionVisitor :=
  exit_scope (walkStatements (functionScopeEnter st id) body)

/-- visit_program: the default walk over the top-level statements. -/
def visitProgram (st : TranslationFunctionVisitor) (program : Stmts) :
    TranslationFunctionVisitor :=
  walkStatements st program

/-- Set-union extension of a usage set (HashSet::extend). -/
def usagesExtend (target source : List String) : List String :=
  source.foldl usageInsert target

/-- Lookup in the namespace-keyed result map of merge_by_namespace. -/
def tfResultGet (result : List (String × List String)) (key : String) :
    Option (List String) :=
  match result with
  | [] => none
  | (k, v) :: rest => if k = key then some v else tfResultGet rest key

/-- In-place update of the namespace-keyed result map of
merge_by_namespace. -/
def tfResultSet (result : List (String × List String)) (key : String)
    (v : List String) : List (String × List String) :=
  match result with
  | [] => []
  | (k, old) :: rest =>
      if k = key then (k, v) :: rest else (k, old) :: tfResultSet rest key v

/-- Embeds merge_by_namespace of visitor.rs: folds the per-binding usage
sets into one map keyed by namespace. -/
def merge_by_namespace (st : TranslationFunctionVisitor) :
    List (String × List String) :=
  st.translation_functions.foldl
    (fun result p =>
      match tfResultGet result p.2.nspace with
      | some existing =>
          tfResultSet result p.2.nspace (usagesExtend existing p.2.usages)
      | none => result ++ [(p.2.nspace, p.2.usages)])
    []

/-- Embeds the parser return value at the boundary of
extract_translations (crates/extractor/src/lib.rs): oxc parsing is
error-tolerant, returning recovered errors alongside the (possibly empty)
recovered program. -/
structure ParserReturn where
  errors : List String
  program : Stmts
deriving Repr

/-- Embeds extract_translations of crates/extractor/src/lib.rs: the parse
errors are printed (reported, non-fatal) and the visitor runs over the
recovered program regardless; the result is merge_by_namespace of the
visitor state. -/
def extract_translations (ret : ParserReturn) :
    List (String × List String) :=
  merge_by_namespace (visitProgram TranslationFunctionVisitor.new ret.program)

/-- The per-event driver of the watch loop of watch.rs for change events:
each event's file is extracted and added under its path, and the loop
continues with the next event (an event failure is logged, never
propagated). -/
def processEvents (h : MessageHandler)
    (events : List (String × ParserReturn)) : MessageHandler :=
  events.foldl (fun acc ev => process_file_change acc (extract_translations ev.2) ev.1) h

/-! ## Well-formedness of the extracted-messages trie -/

/-- Emptiness test on the modelled map. -/
def MessageMap.isNil : MessageMap → Bool
  | .nil => true
  | .cons _ _ _ => false

mutual
/-- A trie node is well formed when every branch below it, itself included,
is non-empty. -/
def nodeOk : MessageNode → Bool
  | .left _ => true
  | .right m => !m.isNil && mapOk m

/-- A trie level is well formed when all its nodes are. -/
def mapOk : MessageMap → Bool
  | .nil => true
  | .cons _ n rest => nodeOk n && mapOk rest
end

/-! ## Concrete scenario inputs used by the checked properties -/

/-- The catalog object with the value v at the dotted path parent.child.k. -/
def nestedCatalog : Fields :=
  .cons "parent" (.obj (.cons "child" (.obj (.cons "k" (.str "v") .nil)) .nil)) .nil

/-- Handler state after inserting key k under the two-segment namespace
parent.child from file f, against nestedCatalog. -/
def nestedHandler : MessageHandler :=
  add_extracted_message (MessageHandler.new nestedCatalog) "parent.child" "k" "f"

/-- Handler state after inserting key k under namespace a.b from file f1 and
then key b under namespace a from file f2: the second insertion needs a Leaf
at the position of the Branch a.b. -/
def branchClashHandler : MessageHandler :=
  add_extracted_message
    (add_extracted_message (MessageHandler.new .nil) "a.b" "k" "f1") "a" "b" "f2"

/-- A change event for path p whose tree extracts the single pair
(ns1, key1), processed once. -/
def changedOnce : MessageHandler :=
  process_file_change (MessageHandler.new .nil) [("ns1", ["key1"])] "p"

/-- The same change event processed a second time with the unchanged tree. -/
def changedTwice : MessageHandler :=
  process_file_change changedOnce [("ns1", ["key1"])] "p"

/-- Prior state for the removal-inverse scenario: (ns1, key1) contributed by
file B. -/
def priorStateB : MessageHandler :=
  add_extracted_message (MessageHandler.new .nil) "ns1" "key1" "B"

/-- priorStateB after a change event for path A whose tree also extracts
(ns1, key1). -/
def afterChangeA : MessageHandler :=
  process_file_change priorStateB [("ns1", ["key1"])] "A"

/-- afterChangeA after the removal event for path A. -/
def afterRemovalA : MessageHandler :=
  process_file_removal afterChangeA "A"

/-- The declaration const t = useTranslations("NS"). -/
def declUseTranslations : Decl :=
  .mk (.bindingIdentifier "t")
    (.init (.callExpression (.identifier "useTranslations")
      (.cons (.expr (.stringLiteral "NS")) .nil)))

/-- A named function Outer containing an anonymous function expression
followed by the declaration const t = useTranslations("NS"). -/
def progAnonymousInOuter : Stmts :=
  .cons
    (.functionDeclaration (some "Outer")
      (.cons (.expressionStatement (.functionExpression none .nil))
        (.cons (.variableDeclaration (.cons declUseTranslations .nil)) .nil)))
    .nil

/-- A named function Outer declaring const t = useTranslations("NS") and a
differently-named inner function Inner calling t("key"). -/
def progOuterInner : Stmts :=
  .cons
    (.functionDeclaration (some "Outer")
      (.cons (.variableDeclaration (.cons declUseTranslations .nil))
        (.cons
          (.functionDeclaration (some "Inner")
            (.cons
              (.expressionStatement
                (.callExpression (.identifier "t")
                  (.cons (.expr (.stringLiteral "key")) .nil)))
              .nil))
          .nil)))
    .nil

/-- The declaration const t = await getTranslations("ns"): an awaited call
to a recognized hook whose first argument is a string literal. -/
def declAwaitGetString : Decl :=
  .mk (.bindingIdentifier "t")
    (.init (.awaitExpression (.callExpression (.identifier "getTranslations")
      (.cons (.expr (.stringLiteral "ns")) .nil))))

/-! ## Statement helpers for the checked properties -/

/-- The base identifier of a call's callee as visit_call_expression resolves
it: the object identifier of a static member callee, or the bare identifier
callee. -/
def calleeBaseName : Expr → Option String
  | .staticMemberExpression (.identifier name) _ => some name
  | .identifier name => some name
  | _ => none

/-- One of the two recognized hook identifiers. -/
def isRecognizedHook (name : String) : Bool :=
  name == "useTranslations" || name == "getTranslations"

/-- Namespace resolution from a string-literal first argument. -/
def stringLiteralNamespace (arguments : Args) : Option String :=
  match arguments.first with
  | some (.expr (.stringLiteral s)) => some s
  | _ => none

/-- Namespace resolution from the string-valued namespace field of an
object-literal first argument. -/
def objectNamespaceField (arguments : Args) : Option String :=
  match arguments.first with
  | some (.expr (.objectExpression props)) => findNamespaceProp props
  | _ => none

/-- The binding condition claimed by the specification: the initializer is a
direct call, or a call under a single await, to a recognized hook, and the
namespace is resolvable by either resolution form, for either hook. -/
def claimedBindingNamespace : Decl → Option String
  | .mk _ (.init (.callExpression (.identifier name) arguments)) =>
      if isRecognizedHook name then
        (stringLiteralNamespace arguments).orElse (fun _ => objectNamespaceField arguments)
      else none
  | .mk _ (.init (.awaitExpression (.callExpression (.identifier name) arguments))) =>
      if isRecognizedHook name then
        (stringLiteralNamespace arguments).orElse (fun _ => objectNamespaceField arguments)
      else none
  | _ => none

/-- The binding condition the code implements: the resolution form is
selected by awaitedness, not by which hook is called -- a direct hook call
resolves only a string-literal first argument, an awaited hook call resolves
only the namespace field of an object-literal first argument. -/
def amendedBindingNamespace : Decl → Option String
  | .mk _ (.init (.callExpression (.identifier name) arguments)) =>
      if isRecognizedHook name then stringLiteralNamespace arguments else none
  | .mk _ (.init (.awaitExpression (.callExpression (.identifier name) arguments))) =>
      if isRecognizedHook name then objectNamespaceField arguments else none
  | _ => none

/-- Whether the declarator initializer is a direct or single-awaited call to
a recognized hook with an identifier callee. -/
def isHookCallDecl : Decl → Bool
  | .mk _ (.init (.callExpression (.identifier name) _)) => isRecognizedHook name
  | .mk _ (.init (.awaitExpression (.callExpression (.identifier name) _))) =>
      isRecognizedHook name
  | _ => false

/-- The visitDeclarator outcome triple for a plain-identifier declarator:
with a resolvable namespace (in the await-selected form) the binding is
inserted under the scope-qualified name, with a hook call whose namespace is
unresolvable only a warning is appended, and without a hook call the state
is unchanged. -/
def declaratorSpec (st : TranslationFunctionVisitor) (x : String)
    (initE : DeclInit) : Prop :=
  (∀ ns, amendedBindingNamespace (.mk (.bindingIdentifier x) initE) = some ns →
    visitDeclarator st (.mk (.bindingIdentifier x) initE)
      = { st with
          translation_functions :=
            tfInsert st.translation_functions
              (current_scope_name st ++ ":" ++ x) ⟨ns, []⟩ })
  ∧ (isHookCallDecl (.mk (.bindingIdentifier x) initE) = true →
      amendedBindingNamespace (.mk (.bindingIdentifier x) initE) = none →
      visitDeclarator st (.mk (.bindingIdentifier x) initE)
        = { st with warnings := st.warnings ++ [namespaceWarning] })
  ∧ (isHookCallDecl (.mk (.bindingIdentifier x) initE) = false →
      visitDeclarator st (.mk (.bindingIdentifier x) initE) = st)

/-! ## Helper lemmas -/

theorem mapOk_get : ∀ (m : MessageMap) (key : String) (n : MessageNode),
    mapOk m = true → m.get key = some n → nodeOk n = true
  | .nil, _, _, _, hget => by simp [MessageMap.get] at hget
  | .cons k nd rest, key, n, hok, hget => by
      rw [mapOk] at hok
      rw [MessageMap.get] at hget
      by_cases hk : k = key
      · rw [if_pos hk] at hget
        cases hget
        exact (Bool.and_eq_true_iff.mp hok).1
      · rw [if_neg hk] at hget
        exact mapOk_get rest key n (Bool.and_eq_true_iff.mp hok).2 hget

theorem mapOk_insert : ∀ (m : MessageMap) (key : String) (n : MessageNode),
    nodeOk n = true → mapOk m = true → mapOk (m.insert key n) = true
  | .nil, key, n, hn, _ => by simp [MessageMap.insert, mapOk, hn]
  | .cons k nd rest, key, n, hn, hok => by
      rw [mapOk] at hok
      rw [MessageMap.insert]
      by_cases hk : k = key
      · rw [if_pos hk, mapOk, hn]
        simpa using (Bool.and_eq_true_iff.mp hok).2
      · rw [if_neg hk, mapOk,
          mapOk_insert rest key n hn (Bool.and_eq_true_iff.mp hok).2]
        simpa using (Bool.and_eq_true_iff.mp hok).1

theorem insert_ne_nil : ∀ (m : MessageMap) (key : String) (n : MessageNode),
    m.insert key n ≠ .nil
  | .nil, key, n => by simp [MessageMap.insert]
  | .cons k nd rest, key, n => by
      rw [MessageMap.insert]
      by_cases hk : k = key
      · rw [if_pos hk]; simp
      · rw [if_neg hk]; simp

/-- The insertion walk started on an empty level never returns an empty
level. -/
theorem addWalk_nil_ne (parts : List String) (nspace key fp : String) :
    (addWalk .nil parts nspace key fp).1 ≠ .nil := by
  cases parts with
  | nil => exact insert_ne_nil _ _ _
  | cons part rest =>
      show (MessageMap.insert .nil part _) ≠ .nil
      exact insert_ne_nil _ _ _

/-- The insertion walk either aborts with the level unchanged or returns a
non-empty level. -/
theorem addWalk_fst_ne_or_eq (m : MessageMap) (parts : List String)
    (nspace key fp : String) :
    (addWalk m parts nspace key fp).1 ≠ .nil ∨ (addWalk m parts nspace key fp).1 = m := by
  cases parts with
  | nil => exact Or.inl (insert_ne_nil _ _ _)
  | cons part rest =>
      rw [addWalk]
      cases hget : m.get part with
      | none => exact Or.inl (insert_ne_nil _ _ _)
      | some nd =>
          cases nd with
          | left info => exact Or.inr rfl
          | right child => exact Or.inl (insert_ne_nil _ _ _)

theorem isNil_false_of_ne (m : MessageMap) (h : m ≠ .nil) : m.isNil = false := by
  cases m with
  | nil => exact absurd rfl h
  | cons k n rest => rfl

/-- The insertion walk preserves well-formedness of the trie: even an
aborting insertion leaves every branch non-empty. -/
theorem addWalk_ok : ∀ (parts : List String) (m : MessageMap) (nspace key fp : String),
    mapOk m = true → mapOk (addWalk m parts nspace key fp).1 = true
  | [], m, nspace, key, fp, hok => by
      rw [addWalk]
      exact mapOk_insert m key _ rfl hok
  | part :: rest, m, nspace, key, fp, hok => by
      rw [addWalk]
      cases hget : m.get part with
      | none =>
          have hchild := addWalk_ok rest .nil nspace key fp rfl
          have hne := addWalk_nil_ne rest nspace key fp
          refine mapOk_insert m part _ ?_ hok
          rw [nodeOk, isNil_false_of_ne _ hne, hchild]
          rfl
      | some nd =>
          cases nd with
          | left info => exact hok
          | right child =>
              have hcn := mapOk_get m part _ hok hget
              rw [nodeOk, Bool.and_eq_true_iff] at hcn
              have hchild := addWalk_ok rest child nspace key fp hcn.2
              have hne : (addWalk child rest nspace key fp).1 ≠ .nil := by
                rcases addWalk_fst_ne_or_eq child rest nspace key fp with hne | heq
                · exact hne
                · rw [heq]
                  intro hnil
                  rw [hnil] at hcn
                  simp [MessageMap.isNil] at hcn
              refine mapOk_insert m part _ ?_ hok
              rw [nodeOk, isNil_false_of_ne _ hne, hchild]
              rfl

/-- Removal unconditionally re-establishes well-formedness: every branch it
keeps is non-empty, recursively. -/
theorem remove_ok : ∀ (m : MessageMap) (fp : String),
    mapOk (remove_messages m fp) = true
  | .nil, fp => rfl
  | .cons k (.left info) rest, fp => by
      rw [remove_messages]
      by_cases hf : info.file_path = fp
      · rw [if_pos hf]
        exact remove_ok rest fp
      · rw [if_neg hf, mapOk, remove_ok rest fp]
        rfl
  | .cons k (.right child) rest, fp => by
      rw [remove_messages]
      by_cases hc : remove_messages child fp = .nil
      · rw [if_pos hc]
        exact remove_ok rest fp
      · rw [if_neg hc, mapOk, remove_ok rest fp, nodeOk,
          isNil_false_of_ne _ hc, remove_ok child fp]
        rfl

theorem declaratorSpecOfTrivial {st : TranslationFunctionVisitor} {x : String}
    {initE : DeclInit}
    (h1 : amendedBindingNamespace (.mk (.bindingIdentifier x) initE) = none)
    (h2 : isHookCallDecl (.mk (.bindingIdentifier x) initE) = false)
    (h3 : visitDeclarator st (.mk (.bindingIdentifier x) initE) = st) :
    declaratorSpec st x initE := by
  refine ⟨?_, ?_, fun _ => h3⟩
  · intro ns h
    rw [h1] at h
    exact Option.noConfusion h
  · intro htrue _
    rw [h2] at htrue
    exact Bool.noConfusion htrue

theorem declaratorSpecDirectCall (st : TranslationFunctionVisitor)
    (x n : String) (args : Args) :
    declaratorSpec st x (.init (.callExpression (.identifier n) args)) := by
  by_cases hu : n = "useTranslations"
  · subst hu
    refine ⟨?_, ?_, ?_⟩
    · intro ns h
      have h2 : stringLiteralNamespace args = some ns := h
      show (match stringLiteralNamespace args with
        | none =>
            ({ st with warnings := st.warnings ++ [namespaceWarning] } :
              TranslationFunctionVisitor)
        | some nspace =>
            { st with
              translation_functions :=
                tfInsert st.translation_functions
                  (current_scope_name st ++ ":" ++ x) ⟨nspace, []⟩ })
          = { st with
              translation_functions :=
                tfInsert st.translation_functions
                  (current_scope_name st ++ ":" ++ x) ⟨ns, []⟩ }
      rw [h2]
    · intro _ h
      have h2 : stringLiteralNamespace args = none := h
      show (match stringLiteralNamespace args with
        | none =>
            ({ st with warnings := st.warnings ++ [namespaceWarning] } :
              TranslationFunctionVisitor)
        | some nspace =>
            { st with
              translation_functions :=
                tfInsert st.translation_functions
                  (current_scope_name st ++ ":" ++ x) ⟨nspace, []⟩ })
          = { st with warnings := st.warnings ++ [namespaceWarning] }
      rw [h2]
    · intro hfalse
      exact Bool.noConfusion hfalse
  · by_cases hg : n = "getTranslations"
    · subst hg
      refine ⟨?_, ?_, ?_⟩
      · intro ns h
        have h2 : stringLiteralNamespace args = some ns := h
        show (match stringLiteralNamespace args with
          | none =>
              ({ st with warnings := st.warnings ++ [namespaceWarning] } :
                TranslationFunctionVisitor)
          | some nspace =>
              { st with
                translation_functions :=
                  tfInsert st.translation_functions
                    (current_scope_name st ++ ":" ++ x) ⟨nspace, []⟩ })
            = { st with
                translation_functions :=
                  tfInsert st.translation_functions
                    (current_scope_name st ++ ":" ++ x) ⟨ns, []⟩ }
        rw [h2]
      · intro _ h
        have h2 : stringLiteralNamespace args = none := h
        show (match stringLiteralNamespace args with
          | none =>
              ({ st with warnings := st.warnings ++ [namespaceWarning] } :
                TranslationFunctionVisitor)
          | some nspace =>
              { st with
                translation_functions :=
                  tfInsert st.translation_functions
                    (current_scope_name st ++ ":" ++ x) ⟨nspace, []⟩ })
            = { st with warnings := st.warnings ++ [namespaceWarning] }
        rw [h2]
      · intro hfalse
        exact Bool.noConfusion hfalse
    · have hrecF : isRecognizedHook n = false := by
        simp [isRecognizedHook, hu, hg]
      refine ⟨?_, ?_, ?_⟩
      · intro ns h
        simp [amendedBindingNamespace, hrecF] at h
      · intro htrue _
        simp [isHookCallDecl, hrecF] at htrue
      · intro _
        show (if n ≠ "useTranslations" ∧ n ≠ "getTranslations" then st
          else
            (match extract_namespace_from_translations_call args false with
            | none =>
                ({ st with warnings := st.warnings ++ [namespaceWarning] } :
                  TranslationFunctionVisitor)
            | some nspace =>
                { st with
                  translation_functions :=
                    tfInsert st.translation_functions
                      (current_scope_name st ++ ":" ++ x) ⟨nspace, []⟩ }))
          = st
        rw [if_pos ⟨hu, hg⟩]

theorem declaratorSpecAwaitedCall (st : TranslationFunctionVisitor)
    (x n : String) (args : Args) :
    declaratorSpec st x
      (.init (.awaitExpression (.callExpression (.identifier n) args))) := by
  by_cases hu : n = "useTranslations"
  · subst hu
    refine ⟨?_, ?_, ?_⟩
    · intro ns h
      have h2 : objectNamespaceField args = some ns := h
      show (match objectNamespaceField args with
        | none =>
            ({ st with warnings := st.warnings ++ [namespaceWarning] } :
              TranslationFunctionVisitor)
        | some nspace =>
            { st with
              translation_functions :=
                tfInsert st.translation_functions
                  (current_scope_name st ++ ":" ++ x) ⟨nspace, []⟩ })
          = { st with
              translation_functions :=
                tfInsert st.translation_functions
                  (current_scope_name st ++ ":" ++ x) ⟨ns, []⟩ }
      rw [h2]
    · intro _ h
      have h2 : objectNamespaceField args = none := h
      show (match objectNamespaceField args with
        | none =>
            ({ st with warnings := st.warnings ++ [namespaceWarning] } :
              TranslationFunctionVisitor)
        | some nspace =>
            { st with
              translation_functions :=
                tfInsert st.translation_functions
                  (current_scope_name st ++ ":" ++ x) ⟨nspace, []⟩ })
          = { st with warnings := st.warnings ++ [namespaceWarning] }
      rw [h2]
    · intro hfalse
      exact Bool.noConfusion hfalse
  · by_cases hg : n = "getTranslations"
    · subst hg
      refine ⟨?_, ?_, ?_⟩
      · intro ns h
        have h2 : objectNamespaceField args = some ns := h
        show (match objectNamespaceField args with
          | none =>
              ({ st with warnings := st.warnings ++ [namespaceWarning] } :
                TranslationFunctionVisitor)
          | some nspace =>
              { st with
                translation_functions :=
                  tfInsert st.translation_functions
                    (current_scope_name st ++ ":" ++ x) ⟨nspace, []⟩ })
            = { st with
                translation_functions :=
                  tfInsert st.translation_functions
                    (current_scope_name st ++ ":" ++ x) ⟨ns, []⟩ }
        rw [h2]
      · intro _ h
        have h2 : objectNamespaceField args = none := h
        show (match objectNamespaceField args with
          | none =>
              ({ st with warnings := st.warnings ++ [namespaceWarning] } :
                TranslationFunctionVisitor)
          | some nspace =>
              { st with
                translation_functions :=
                  tfInsert st.translation_functions
                    (current_scope_name st ++ ":" ++ x) ⟨nspace, []⟩ })
            = { st with warnings := st.warnings ++ [namespaceWarning] }
        rw [h2]
      · intro hfalse
        exact Bool.noConfusion hfalse
    · have hrecF : isRecognizedHook n = false := by
        simp [isRecognizedHook, hu, hg]
      refine ⟨?_, ?_, ?_⟩
      · intro ns h
        simp [amendedBindingNamespace, hrecF] at h
      · intro htrue _
        simp [isHookCallDecl, hrecF] at htrue
      · intro _
        show (if n ≠ "useTranslations" ∧ n ≠ "getTranslations" then st
          else
            (match extract_namespace_from_translations_call args true with
            | none =>
                ({ st with warnings := st.warnings ++ [namespaceWarning] } :
                  TranslationFunctionVisitor)
            | some nspace =>
                { st with
                  translation_functions :=
                    tfInsert st.translation_functions
                      (current_scope_name st ++ ":" ++ x) ⟨nspace, []⟩ }))
          = st
        rw [if_pos ⟨hu, hg⟩]

/-! ## The checked properties -/

/-- C1: for a namespace of dot-depth two the merged output does not hold, at
the full dotted path parent.child.k, the catalog value at that path or the
full-path placeholder.  The catalog holds the value v at parent.child.k, yet
the merged output holds the string child.k there: merge_recursive passes
only the immediate branch key as the new prefix instead of the accumulated
dotted path, so both the catalog lookup and the placeholder drop every outer
namespace segment.  This contradicts the claimed behaviour for namespaces of
any dot-depth (which the depth-one test suite of messages.rs never
exercises). -/
theorem c1_nested_merge_drops_outer_segments :
    merge_messages nestedHandler
      = .cons "parent"
          (.obj (.cons "child" (.obj (.cons "k" (.str "child.k") .nil)) .nil)) .nil
  ∧ nestedCatalog.get "parent"
      = some (.obj (.cons "child" (.obj (.cons "k" (.str "v") .nil)) .nil))
  ∧ nestedHandler.conflicts = [] := by
  refine ⟨?_, ?_, ?_⟩ <;> rfl

/-- C3: inserting key b under namespace a from file f2, after file f1 has
populated the Branch at a.b with key k, silently replaces that Branch by a
Leaf owned by f2 and records no conflict: the final-slot check of
add_extracted_message only matches an existing Leaf, so a Branch occupying
the leaf slot is overwritten and f1's subtree is dropped without any
NamespaceConflict, contradicting the claimed never-silently-overwritten
invariant for the Leaf-required-where-Branch-exists direction. -/
theorem c3_branch_silently_overwritten_by_leaf :
    branchClashHandler.conflicts = []
  ∧ branchClashHandler.extracted_messages
      = .cons "a" (.right (.cons "b" (.left ⟨"", "f2"⟩) .nil)) .nil := by
  exact ⟨rfl, rfl⟩

/-- C4: processing the same change event twice with an unchanged tree is not
idempotent on the conflict set.  process_file_change never replaces a prior
stored extraction result (it only re-adds the messages), and
add_extracted_message records a conflict whenever the leaf slot is occupied,
without comparing the owning file, so the second run fabricates the
self-conflict (ns1, key1, [p, p]) while the rebuilt catalog happens to be
identical. -/
theorem c4_second_run_fabricates_self_conflict :
    changedOnce.conflicts = []
  ∧ changedTwice.conflicts = [⟨"ns1", "key1", ["p", "p"]⟩]
  ∧ changedTwice.extracted_messages = changedOnce.extracted_messages
  ∧ merge_messages changedTwice = merge_messages changedOnce := by
  refine ⟨?_, ?_, ?_, ?_⟩ <;> rfl

/-- C5: a change event for path A followed by a removal event for A does not
restore the prior trie.  Starting from a trie holding (ns1, key1) owned by
file B, the change event for A overwrites that leaf with owner A (recording
a conflict), and the removal of A then deletes the leaf outright and prunes
the branch, so B's contribution is lost: the resulting trie is empty instead
of equal to the state in which A was never processed. -/
theorem c5_change_then_removal_loses_other_file :
    afterRemovalA.extracted_messages = .nil
  ∧ priorStateB.extracted_messages
      = .cons "ns1" (.right (.cons "key1" (.left ⟨"", "B"⟩) .nil)) .nil
  ∧ afterRemovalA.extracted_messages ≠ priorStateB.extracted_messages := by
  refine ⟨rfl, rfl, ?_⟩
  decide

/-- C7: scope pushes and pops are not strictly paired.  visit_function calls
exit_scope unconditionally, even when the function has no name and nothing
was pushed, so visiting an anonymous function from the stack [Outer] leaves
the stack empty instead of unchanged; in the program progAnonymousInOuter
the binding declared after the anonymous function is consequently keyed
under the empty scope (key :t) instead of Outer:t. -/
theorem c7_anonymous_function_pops_enclosing_scope :
    (visit_function
        { translation_functions := [], current_scope := ["Outer"], warnings := [] }
        none .nil).current_scope = []
  ∧ (visitProgram TranslationFunctionVisitor.new progAnonymousInOuter).translation_functions
      = [(":t", ⟨"NS", []⟩)]
  ∧ (visitProgram TranslationFunctionVisitor.new progAnonymousInOuter).translation_functions
      ≠ [("Outer:t", ⟨"NS", []⟩)] := by
  refine ⟨rfl, rfl, ?_⟩
  decide

/-- C10: every branch of the extracted-messages trie is non-empty after
every add_extracted_message and every remove_messages_for_file: the initial
trie is well formed, insertion preserves well-formedness (an aborting
insertion leaves no freshly created empty branch behind, because a conflict
can only arise along a path of pre-existing branches), and removal prunes
every branch whose subtree becomes empty. -/
theorem c10_branches_stay_nonempty :
    mapOk .nil = true
  ∧ (∀ (h : MessageHandler) (nspace key fp : String),
      mapOk h.extracted_messages = true →
      mapOk (add_extracted_message h nspace key fp).extracted_messages = true)
  ∧ (∀ (h : MessageHandler) (fp : String),
      mapOk (remove_messages_for_file h fp).extracted_messages = true) := by
  refine ⟨rfl, ?_, ?_⟩
  · intro h nspace key fp hok
    exact addWalk_ok _ _ _ _ _ hok
  · intro h fp
    exact remove_ok _ _

/-- Witness for C10: the preservation half applied to the insertion of
(ns1, key1) from file A into the fresh handler. -/
theorem c10_branches_stay_nonempty_witness :
    mapOk (add_extracted_message (MessageHandler.new .nil) "ns1" "key1" "A").extracted_messages
      = true :=
  c10_branches_stay_nonempty.2.1 (MessageHandler.new .nil) "ns1" "key1" "A" rfl

/-- C9: a file that cannot be parsed during a change event contributes an
empty extraction result and does not halt catalog maintenance.  oxc parsing
is error-tolerant: extract_translations prints the recovered errors and runs
the visitor over the recovered program regardless, so a fully unparsable
file (empty recovered program) yields the empty extraction result, the
handler state is unchanged by that event, and the remaining events of the
watch loop are processed exactly as they would have been. -/
theorem c9_unparsable_file_is_empty_and_nonfatal :
    ∀ (h : MessageHandler) (path : String) (ret : ParserReturn)
      (events : List (String × ParserReturn)),
      ret.program = .nil →
      extract_translations ret = []
      ∧ processEvents h ((path, ret) :: events) = processEvents h events := by
  intro h path ret events hprog
  obtain ⟨errors, program⟩ := ret
  simp only at hprog
  subst hprog
  exact ⟨rfl, rfl⟩

/-- C2 as stated is false in its one-record-per-pair part: a third file C
inserting the same (ns1, key1) yields a second NamespaceConflict record for
the same pair (naming the previous owner B and C) instead of growing the
files list of the existing record, so after three same-key insertions the
conflict list holds two records for (ns1, key1) and no record names all
three files. -/
theorem c2_third_file_appends_second_record :
    (add_extracted_message
        (add_extracted_message
          (add_extracted_message (MessageHandler.new .nil) "ns1" "key1" "A")
          "ns1" "key1" "B")
        "ns1" "key1" "C").conflicts
      = [⟨"ns1", "key1", ["A", "B"]⟩, ⟨"ns1", "key1", ["B", "C"]⟩] := rfl

/-- C2 (amended): inserting key1 under ns1 from file A and then the same
pair from a different file B yields exactly one NamespaceConflict record
naming both A and B, and removing A's contribution leaves the conflict list
empty (the claim's aside that a later collision on the same pair grows that
record's files set does not hold -- each collision appends a fresh
record). -/
theorem c2_two_file_conflict_and_removal (cat : Fields) (A B : String)
    (hAB : A ≠ B) :
    (add_extracted_message
        (add_extracted_message (MessageHandler.new cat) "ns1" "key1" A)
        "ns1" "key1" B).conflicts
      = [⟨"ns1", "key1", [A, B]⟩]
  ∧ (remove_messages_for_file
        (add_extracted_message
          (add_extracted_message (MessageHandler.new cat) "ns1" "key1" A)
          "ns1" "key1" B)
        A).conflicts
      = []
  ∧ (remove_messages_for_file
        (add_extracted_message
          (add_extracted_message (MessageHandler.new cat) "ns1" "key1" A)
          "ns1" "key1" B)
        A).extracted_messages
      = .cons "ns1" (.right (.cons "key1" (.left ⟨"", B⟩) .nil)) .nil := by
  have hBA : ¬ (B = A) := fun h => hAB h.symm
  refine ⟨rfl, ?_, ?_⟩
  · have hc : (add_extracted_message
        (add_extracted_message (MessageHandler.new cat) "ns1" "key1" A)
        "ns1" "key1" B).conflicts = [⟨"ns1", "key1", [A, B]⟩] := rfl
    simp only [remove_messages_for_file, hc]
    simp [List.filter, List.contains, List.elem]
  · show remove_messages (.cons "ns1" (.right (.cons "key1" (.left ⟨"", B⟩) .nil)) .nil) A
        = .cons "ns1" (.right (.cons "key1" (.left ⟨"", B⟩) .nil)) .nil
    simp [remove_messages, hBA]

/-- Witness for C2 (amended): the two-file scenario at the concrete files
file1.ts and file2.ts over the empty catalog. -/
theorem c2_two_file_conflict_and_removal_witness :
    (add_extracted_message
        (add_extracted_message (MessageHandler.new .nil) "ns1" "key1" "file1.ts")
        "ns1" "key1" "file2.ts").conflicts
      = [⟨"ns1", "key1", ["file1.ts", "file2.ts"]⟩]
  ∧ (remove_messages_for_file
        (add_extracted_message
          (add_extracted_message (MessageHandler.new .nil) "ns1" "key1" "file1.ts")
          "ns1" "key1" "file2.ts")
        "file1.ts").conflicts
      = [] :=
  ⟨(c2_two_file_conflict_and_removal .nil "file1.ts" "file2.ts" (by decide)).1,
    (c2_two_file_conflict_and_removal .nil "file1.ts" "file2.ts" (by decide)).2.1⟩

/-- C6: a call expression contributes an extracted key only when the
translation function table holds a binding at exactly the key built from
the scope path at the call site joined with a dot, a colon, and the callee
base identifier -- when no binding sits at that exact key the visitor state
is unchanged; in particular, in progOuterInner the binding declared in
Outer is stored under Outer:t, the call from the differently-named inner
scope looks up Outer.Inner:t, and no key is extracted (the usage set of the
binding stays empty). -/
theorem c6_binding_lookup_is_scope_exact :
    (∀ (st : TranslationFunctionVisitor) (callee : Expr) (arguments : Args),
      (∀ name, calleeBaseName callee = some name →
        tfGet st.translation_functions (current_scope_name st ++ ":" ++ name) = none) →
      visit_call_expression st callee arguments = st)
  ∧ (visitProgram TranslationFunctionVisitor.new progOuterInner).translation_functions
      = [("Outer:t", ⟨"NS", []⟩)] := by
  constructor
  · intro st callee arguments hnone
    cases callee with
    | staticMemberExpression object property =>
        cases object with
        | identifier name =>
            have h := hnone name rfl
            simp [visit_call_expression, recordUsage, h]
        | stringLiteral v => rfl
        | callExpression c a => rfl
        | awaitExpression a => rfl
        | objectExpression ps => rfl
        | staticMemberExpression o p => rfl
        | functionExpression i b => rfl
        | otherExpression => rfl
    | identifier name =>
        have h := hnone name rfl
        simp [visit_call_expression, recordUsage, h]
    | stringLiteral v => rfl
    | callExpression c a => rfl
    | awaitExpression a => rfl
    | objectExpression ps => rfl
    | functionExpression i b => rfl
    | otherExpression => rfl
  · rfl

/-- Witness for C6: the scope-exact half applied to a bare call of t at top
level over the empty table, where no binding exists at the exact key. -/
theorem c6_binding_lookup_is_scope_exact_witness :
    visit_call_expression TranslationFunctionVisitor.new (.identifier "t")
        (.cons (.expr (.stringLiteral "key")) .nil)
      = TranslationFunctionVisitor.new :=
  c6_binding_lookup_is_scope_exact.1 TranslationFunctionVisitor.new (.identifier "t")
    (.cons (.expr (.stringLiteral "key")) .nil)
    (fun _ _ => rfl)

/-- C8 as stated is false: for const t = await getTranslations of the string
literal ns, the initializer is a call wrapped in a single await to a
recognized hook and the namespace is resolvable from a string-literal first
argument, so the claim requires a binding; but the code selects the
resolution form by awaitedness (the is_get_translations flag is set by the
await wrapper, not by the callee), expects an object literal for every
awaited call, fails to resolve, logs the warning, and records no binding. -/
theorem c8_awaited_string_literal_creates_no_binding :
    claimedBindingNamespace declAwaitGetString = some "ns"
  ∧ (visitDeclarator TranslationFunctionVisitor.new declAwaitGetString).translation_functions
      = []
  ∧ (visitDeclarator TranslationFunctionVisitor.new declAwaitGetString).warnings
      = [namespaceWarning] := by
  refine ⟨rfl, rfl, rfl⟩

/-- C8 (amended): for a declarator with a plain identifier pattern, a
binding is created exactly when the initializer is a direct call to
useTranslations or getTranslations whose first argument is a string literal,
or a call to either hook wrapped in a single await whose first argument is
an object literal with a string-valued namespace field -- the resolution
form is selected by awaitedness, not by which hook is called; when the
initializer is such a hook call but the namespace is not resolvable in the
corresponding form, a warning is logged and the state is otherwise
unchanged (so the declaration records no binding and contributes no
extracted keys), and a non-hook initializer leaves the visitor state
untouched. -/
theorem c8_amended_resolution_form_selected_by_await :
    ∀ (st : TranslationFunctionVisitor) (x : String) (initE : DeclInit),
      declaratorSpec st x initE := by
  intro st x initE
  cases initE with
  | noInit => exact declaratorSpecOfTrivial rfl rfl rfl
  | init e =>
    cases e
    case callExpression callee args =>
      cases callee
      case identifier n => exact declaratorSpecDirectCall st x n args
      all_goals exact declaratorSpecOfTrivial rfl rfl rfl
    case awaitExpression a =>
      cases a
      case callExpression callee args =>
        cases callee
        case identifier n => exact declaratorSpecAwaitedCall st x n args
        all_goals exact declaratorSpecOfTrivial rfl rfl rfl
      all_goals exact declaratorSpecOfTrivial rfl rfl rfl
    all_goals exact declaratorSpecOfTrivial rfl rfl rfl

/-- Witness for C8 (amended): the direct useTranslations call with the
string literal NS creates the binding keyed :t at top level. -/
theorem c8_amended_resolution_form_witness :
    visitDeclarator TranslationFunctionVisitor.new declUseTranslations
      = { translation_functions := [(":t", ⟨"NS", []⟩)], current_scope := [],
          warnings := [] } :=
  (c8_amended_resolution_form_selected_by_await TranslationFunctionVisitor.new "t"
    (.init (.callExpression (.identifier "useTranslations")
      (.cons (.expr (.stringLiteral "NS")) .nil)))).1 "NS" rfl

/-- Witness for C9: a parser return carrying an error and an empty recovered
program, followed by a further event that is processed unchanged. -/
theorem c9_unparsable_file_witness :
    extract_translations ⟨["Unexpected token"], .nil⟩ = []
    ∧ processEvents (MessageHandler.new .nil)
        [("broken.tsx", ⟨["Unexpected token"], .nil⟩), ("ok.tsx", ⟨[], progOuterInner⟩)]
      = processEvents (MessageHandler.new .nil) [("ok.tsx", ⟨[], progOuterInner⟩)] :=
  c9_unparsable_file_is_empty_and_nonfatal (MessageHandler.new .nil) "broken.tsx"
    ⟨["Unexpected token"], .nil⟩ [("ok.tsx", ⟨[], progOuterInner⟩)] rfl

end NextIntlExtractor
